import Mathlib

/-!
Request-orchestration layer of the future-value calculator widget
(`FutureValueCalculator` in the single TypeScript source file).

Shallow embedding conventions:
* JavaScript numbers are modelled as `ℚ`; `Date.now()` timestamps as `Int`
  (milliseconds).
* The contents of the `useState`/`useRef` cells form `OrchState`.
* The synchronous prefix of `fetchCalculation` (in-flight guard, cache
  lookup, rate gate, request start) is `callStep`; the response handling
  together with the `catch` and `finally` blocks is `responseStep`.
* The `Map` held in `cacheRef` is an insertion-ordered association list,
  mirroring JavaScript `Map` iteration semantics.
* The React component wiring (mount effect, debounce effect, timer
  callbacks and the values their closures capture) is the event-driven
  simulator `simRun` below.
-/

def MIN_REQUEST_INTERVAL : Int := 1000

def DEBOUNCE_DELAY : Int := 500

def CACHE_DURATION : Int := 10 * 60 * 1000

def MAX_CACHE_SIZE : Nat := 100

structure CalculationResult where
  current_cost : ℚ
  inflation_rate : ℚ
  no_years : ℚ
  future_amount : ℚ
deriving Repr, DecidableEq

structure CacheEntry where
  result : CalculationResult
  timestamp : Int
  hitCount : Nat
deriving Repr, DecidableEq

/-- The `cacheRef` map: a JavaScript `Map<string, CacheEntry>` modelled as an
insertion-ordered association list with unique keys. -/
abbrev Cache := List (String × CacheEntry)

/-- `Map.get`: first (and, with unique keys, only) binding of the key. -/
def mapGet (m : Cache) (k : String) : Option CacheEntry :=
  (m.find? (fun p => p.1 == k)).map Prod.snd

/-- `Map.set`: overwrite in place if the key is present (JavaScript `Map`
keeps the original insertion position), otherwise append. -/
def mapSet (m : Cache) (k : String) (v : CacheEntry) : Cache :=
  if m.any (fun p => p.1 == k) then
    m.map (fun p => if p.1 == k then (k, v) else p)
  else
    m ++ [(k, v)]

/-- `Map.delete`. -/
def mapDelete (m : Cache) (k : String) : Cache :=
  m.filter (fun p => !(p.1 == k))

/-- `${cost}-${rate}-${yrs}` (template-literal cache key). -/
def getCacheKey (cost rate yrs : ℚ) : String :=
  toString cost ++ "-" ++ toString rate ++ "-" ++ toString yrs

/-- `isCacheValid`: `Date.now() - timestamp < CACHE_DURATION`, with the
current time passed explicitly. -/
def isCacheValid (timestamp now : Int) : Bool :=
  decide (now - timestamp < CACHE_DURATION)

/-- One step of the eviction scan: keep the first entry whose timestamp is
strictly below the running minimum. -/
def scanF (acc : Option String × Int) (p : String × CacheEntry) : Option String × Int :=
  if p.2.timestamp < acc.2 then (some p.1, p.2.timestamp) else acc

/-- The eviction scan: iterate the map entries in insertion order; the
running minimum starts at `Date.now()`. -/
def scanOldest (m : Cache) (init : Int) : Option String × Int :=
  m.foldl scanF (none, init)

/-- The cache insertion performed in the success branch: `Map.set` with
`timestamp = Date.now()`, `hitCount = 1`, followed by the over-capacity
eviction scan and `Map.delete`.  The two `Date.now()` reads in the same
synchronous block are modelled as the single instant `now`. -/
def cachePut (m : Cache) (k : String) (res : CalculationResult) (now : Int) : Cache :=
  let m1 := mapSet m k { result := res, timestamp := now, hitCount := 1 }
  if MAX_CACHE_SIZE < m1.length then
    match (scanOldest m1 now).1 with
    | some oldestKey => mapDelete m1 oldestKey
    | none => m1
  else
    m1

/-- The mutable cells of one widget instance: `cacheRef`,
`lastRequestTimeRef`, `requestQueueRef`, `pendingRequestRef`, and the
published `result`/`loading`/`error` state. -/
structure OrchState where
  cache : Cache
  lastRequestTime : Int
  requestQueue : Bool
  pendingRequest : Bool
  result : Option CalculationResult
  loading : Bool
  error : Option String
deriving Repr, DecidableEq

/-- Initial values at mount: `useRef(new Map())`, `useRef(0)`,
`useRef(false)`, `useRef(false)`, `useState(null)`, `useState(false)`,
`useState(null)`. -/
def initialOrchState : OrchState :=
  { cache := []
    lastRequestTime := 0
    requestQueue := false
    pendingRequest := false
    result := none
    loading := false
    error := none }

/-- Observable outcome of the synchronous prefix of `fetchCalculation`. -/
inductive CallOutcome where
  | droppedInFlight
  | servedFromCache
  | deferred
  | fetchStarted
deriving Repr, DecidableEq

/-- Rate-limiter gate of `fetchCalculation`: defer (set `requestQueueRef`)
when less than `MIN_REQUEST_INTERVAL` has passed since
`lastRequestTimeRef`, otherwise mark the request in flight and publish
`loading = true`, `error = null` before issuing the network call. -/
def callRateGate (s : OrchState) (now : Int) : OrchState × CallOutcome :=
  if now - s.lastRequestTime < MIN_REQUEST_INTERVAL then
    ({ s with requestQueue := true }, CallOutcome.deferred)
  else
    ({ s with pendingRequest := true, loading := true, error := none },
     CallOutcome.fetchStarted)

/-- Synchronous prefix of `fetchCalculation(cost, rate, yrs)`: in-flight
guard, cache lookup (serving a valid entry increments its `hitCount` in
place), then the rate gate. -/
def callStep (s : OrchState) (cost rate yrs : ℚ) (now : Int) : OrchState × CallOutcome :=
  if s.pendingRequest then
    (s, CallOutcome.droppedInFlight)
  else
    match mapGet s.cache (getCacheKey cost rate yrs) with
    | some cached =>
        if isCacheValid cached.timestamp now then
          ({ s with
              cache := mapSet s.cache (getCacheKey cost rate yrs)
                { cached with hitCount := cached.hitCount + 1 }
              result := some cached.result
              error := none
              loading := false },
           CallOutcome.servedFromCache)
        else
          callRateGate s now
    | none => callRateGate s now

/-- Optional fields of the JSON payload returned by the remote service. -/
structure ApiPayload where
  current_cost : Option ℚ
  inflation_rate : Option ℚ
  no_years : Option ℚ
  future_amount : Option ℚ
  status : Option Int
  status_msg : Option String
deriving Repr, DecidableEq

/-- What `await fetch` / `await response.json()` produced: either a parsed
response (`response.ok`, `response.status`, body) or a rejection caught by
the `catch` block, carrying its message. -/
inductive FetchResponse where
  | ok (httpOk : Bool) (httpStatus : Int) (data : ApiPayload)
  | networkError (msg : String)
deriving Repr, DecidableEq

def rateLimitMsg : String :=
  "Rate limit exceeded. Please wait before making another request."

def fallbackErrorMsg : String :=
  "Failed to calculate future value"

/-- JavaScript `x || y` on an optional number: the fallback is used when the
field is absent or falsy (zero). -/
def jsOrQ (x : Option ℚ) (fallback : ℚ) : ℚ :=
  match x with
  | some v => if v = 0 then fallback else v
  | none => fallback

/-- JavaScript `x || y` on an optional string: the fallback is used when the
field is absent or falsy (empty). -/
def jsOrStr (x : Option String) (fallback : String) : String :=
  match x with
  | some v => if v = "" then fallback else v
  | none => fallback

/-- `data.status && data.status !== 200`: a present, truthy status different
from 200. -/
def statusIsError (st : Option Int) : Prop :=
  match st with
  | some v => v ≠ 0 ∧ v ≠ 200
  | none => False

instance (st : Option Int) : Decidable (statusIsError st) := by
  unfold statusIsError
  match st with
  | some v => exact instDecidableAnd
  | none => exact instDecidableFalse

/-- The normalization of a successful payload into a `CalculationResult`
(`data.field || requestedValue`, `data.future_amount || 0`). -/
def normalizePayload (data : ApiPayload) (cost rate yrs : ℚ) : CalculationResult :=
  { current_cost := jsOrQ data.current_cost cost
    inflation_rate := jsOrQ data.inflation_rate rate
    no_years := jsOrQ data.no_years yrs
    future_amount := jsOrQ data.future_amount 0 }

/-- Modelled from the spec: the spec's wording of the success-path fallback
("falling back to the originally-requested cost/rate/years if the server
omits echoing them, and to zero for a missing amount"), i.e. the fallback is
used exactly when the field is absent.  Used only to compare the spec's
wording with the source's `normalizePayload`. -/
def specNormalizePayload (data : ApiPayload) (cost rate yrs : ℚ) : CalculationResult :=
  { current_cost := data.current_cost.getD cost
    inflation_rate := data.inflation_rate.getD rate
    no_years := data.no_years.getD yrs
    future_amount := data.future_amount.getD 0 }

/-- The `try` body of `fetchCalculation` from the point the response is
available, together with the `catch` block: 429 branch, error branch
(`throw` plus `catch`), success branch. -/
def responseTry (s : OrchState) (cost rate yrs : ℚ) (resp : FetchResponse) (now : Int) :
    OrchState :=
  match resp with
  | FetchResponse.networkError msg =>
      { s with error := some msg, loading := false }
  | FetchResponse.ok httpOk httpStatus data =>
      if httpStatus = 429 ∨ data.status = some 429 then
        { s with error := some rateLimitMsg, pendingRequest := false, loading := false }
      else if httpOk = false ∨ statusIsError data.status then
        { s with error := some (jsOrStr data.status_msg fallbackErrorMsg), loading := false }
      else
        { s with
            cache := cachePut s.cache (getCacheKey cost rate yrs)
              (normalizePayload data cost rate yrs) now
            result := some (normalizePayload data cost rate yrs)
            lastRequestTime := now
            loading := false }

/-- The `finally` block: clear `pendingRequestRef`; if `requestQueueRef` was
set, clear it and schedule a retry only when the remaining spacing
`MIN_REQUEST_INTERVAL - (now - lastRequestTimeRef)` is strictly positive
(`if (retryTime > 0)` in the source).  Returns the new state and the
scheduled retry delay, if any. -/
def responseFinally (s : OrchState) (now : Int) : OrchState × Option Int :=
  if s.requestQueue then
    if MIN_REQUEST_INTERVAL - (now - s.lastRequestTime) > 0 then
      ({ s with requestQueue := false, pendingRequest := false },
       some (MIN_REQUEST_INTERVAL - (now - s.lastRequestTime)))
    else
      ({ s with requestQueue := false, pendingRequest := false }, none)
  else
    ({ s with pendingRequest := false }, none)

/-- Completion of an in-flight `fetchCalculation`: the `try`/`catch` result
followed by the `finally` block. -/
def responseStep (s : OrchState) (cost rate yrs : ℚ) (resp : FetchResponse) (now : Int) :
    OrchState × Option Int :=
  responseFinally (responseTry s cost rate yrs resp now) now

/-- `response` classified as the success branch: neither the 429 branch nor
the thrown-error branch nor a transport failure. -/
def isSuccessResponse (resp : FetchResponse) : Prop :=
  match resp with
  | FetchResponse.networkError _ => False
  | FetchResponse.ok httpOk httpStatus data =>
      ¬(httpStatus = 429 ∨ data.status = some 429) ∧ ¬(httpOk = false ∨ statusIsError data.status)

instance (resp : FetchResponse) : Decidable (isSuccessResponse resp) := by
  unfold isSuccessResponse
  match resp with
  | FetchResponse.networkError _ => exact instDecidableFalse
  | FetchResponse.ok httpOk httpStatus data => exact instDecidableAnd

/-- The three slider/number inputs (`currentCost`, `inflationRate`,
`years`). -/
structure Inputs where
  cost : ℚ
  rate : ℚ
  years : ℚ
deriving Repr, DecidableEq

/-- One invocation of `fetchCalculation` observed during a simulation run:
when it happened, the argument values it was invoked with, and which branch
it took. -/
structure CallEvent where
  time : Int
  args : Inputs
  outcome : CallOutcome
deriving Repr, DecidableEq

/-- Event-driven model of the mounted component.

* `inputs` is the committed React state of the three inputs.
* `debounce` is the single-slot debounce timer (fire time and the input
  values captured by the closure of the render that scheduled it).
* `retries` are the pending `setTimeout` retry callbacks scheduled by the
  `finally` block; each captures the input values of the closure of the
  `fetchCalculation` instance that scheduled it — NOT the inputs current at
  fire time.
* `inflight` is the outstanding network request: completion time, the
  argument values of the call that issued it, and the scripted response.
* `script` supplies (latency, response) for each network request in order.
* `events` are the pending external input changes, in time order. -/
structure SimState where
  orch : OrchState
  inputs : Inputs
  debounce : Option (Int × Inputs)
  retries : List (Int × Inputs)
  inflight : Option (Int × Inputs × FetchResponse)
  script : List (Int × FetchResponse)
  events : List (Int × Inputs)
  log : List CallEvent
deriving Repr, DecidableEq

/-- Invoke `fetchCalculation` at time `t` with arguments `args`: run the
synchronous prefix, record the call, and if a network request was issued,
consume the next scripted response. -/
def doCall (s : SimState) (t : Int) (args : Inputs) : SimState :=
  let stepRes := callStep s.orch args.cost args.rate args.years t
  let s1 := { s with orch := stepRes.1, log := s.log ++ [⟨t, args, stepRes.2⟩] }
  if stepRes.2 = CallOutcome.fetchStarted then
    match s1.script with
    | [] => s1
    | (latency, resp) :: rest =>
        { s1 with inflight := some (t + latency, args, resp), script := rest }
  else
    s1

/-- The next scheduled occurrence in the simulation. -/
inductive SimTask where
  | net (t : Int)
  | extEvent (t : Int)
  | deb (t : Int)
  | retryFire (t : Int)
deriving Repr, DecidableEq

def simTaskTime : SimTask → Int
  | SimTask.net t => t
  | SimTask.extEvent t => t
  | SimTask.deb t => t
  | SimTask.retryFire t => t

/-- Earliest fire time among the pending retry timers. -/
def minRetryTime (l : List (Int × Inputs)) : Option Int :=
  l.foldl
    (fun best p =>
      match best with
      | none => some p.1
      | some b => if p.1 < b then some p.1 else some b)
    none

/-- Remove the first retry timer scheduled for time `t`, returning its
captured inputs. -/
def popRetry (l : List (Int × Inputs)) (t : Int) : Option (Inputs × List (Int × Inputs)) :=
  match l with
  | [] => none
  | (t0, a) :: rest =>
      if t0 = t then some (a, rest)
      else (popRetry rest t).map (fun p => (p.1, (t0, a) :: p.2))

/-- Pick the next occurrence: the earliest among network completion, external
input change, debounce firing, and retry firing (ties resolved in that
order; the concrete scenarios below avoid ties). -/
def nextTask (s : SimState) : Option SimTask :=
  let cand : List SimTask :=
    (match s.inflight with
     | some (t, _, _) => [SimTask.net t]
     | none => [])
    ++ (match s.events with
        | (t, _) :: _ => [SimTask.extEvent t]
        | [] => [])
    ++ (match s.debounce with
        | some (t, _) => [SimTask.deb t]
        | none => [])
    ++ (match minRetryTime s.retries with
        | some t => [SimTask.retryFire t]
        | none => [])
  cand.foldl
    (fun best c =>
      match best with
      | none => some c
      | some b => if simTaskTime c < simTaskTime b then some c else some b)
    none

/-- Execute the next occurrence.

* A network completion runs `responseStep` with the in-flight call's
  arguments; a retry scheduled by its `finally` block captures those same
  (possibly stale) argument values.
* An external input change commits the new inputs and re-runs the two
  effects whose dependency lists contain `fetchCalculation` (whose identity
  changes whenever an input changes): the mount effect calls
  `fetchCalculation` immediately with the new values, then the debounce
  effect cancels any pending debounce timer and schedules a new one for
  `DEBOUNCE_DELAY` later.
* A debounce or retry firing invokes `fetchCalculation` with the inputs its
  closure captured. -/
def runTask (s : SimState) : SimState :=
  match nextTask s with
  | none => s
  | some (SimTask.net t) =>
      match s.inflight with
      | some (_, args, resp) =>
          let r := responseStep s.orch args.cost args.rate args.years resp t
          let s1 := { s with orch := r.1, inflight := none }
          match r.2 with
          | some d => { s1 with retries := s1.retries ++ [(t + d, args)] }
          | none => s1
      | none => s
  | some (SimTask.extEvent t) =>
      match s.events with
      | (_, newInputs) :: rest =>
          let s1 := { s with inputs := newInputs, events := rest }
          let s2 := doCall s1 t newInputs
          { s2 with debounce := some (t + DEBOUNCE_DELAY, newInputs) }
      | [] => s
  | some (SimTask.deb _) =>
      match s.debounce with
      | some (t, args) => doCall { s with debounce := none } t args
      | none => s
  | some (SimTask.retryFire t) =>
      match popRetry s.retries t with
      | some (args, rest) => doCall { s with retries := rest } t args
      | none => s

/-- Run the simulation until no occurrence is pending (or fuel runs out). -/
def simRun : Nat → SimState → SimState
  | 0, s => s
  | fuel + 1, s =>
      match nextTask s with
      | none => s
      | some _ => simRun fuel (runTask s)

/-- State just after mount at time `t0`: the mount effect fires
`fetchCalculation` immediately, and the debounce effect (which also runs
when `mounted` flips to true) schedules a debounce timer for
`t0 + DEBOUNCE_DELAY` capturing the initial inputs. -/
def simInit (t0 : Int) (i0 : Inputs) (script : List (Int × FetchResponse))
    (events : List (Int × Inputs)) : SimState :=
  let base : SimState :=
    { orch := initialOrchState
      inputs := i0
      debounce := none
      retries := []
      inflight := none
      script := script
      events := events
      log := [] }
  let s1 := doCall base t0 i0
  { s1 with debounce := some (t0 + DEBOUNCE_DELAY, i0) }

/-- Well-formedness of the cache map: bounded size, unique keys, and all
insertion timestamps at most `t`. -/
def CacheWF (m : Cache) (t : Int) : Prop :=
  m.length ≤ MAX_CACHE_SIZE ∧ (m.map Prod.fst).Nodup ∧ ∀ p ∈ m, p.2.timestamp ≤ t

instance (m : Cache) (t : Int) : Decidable (CacheWF m t) := by
  unfold CacheWF
  infer_instance

/-- A sequence of success-path cache insertions (key, result, time) applied
to the initially empty cache. -/
def applyPuts (ops : List (String × CalculationResult × Int)) : Cache :=
  ops.foldl (fun acc op => cachePut acc op.1 op.2.1 op.2.2) []

/-- A 200-with-body response echoing the requested inputs. -/
def okResponseFor (i : Inputs) (amount : ℚ) : FetchResponse :=
  FetchResponse.ok true 200
    ⟨some i.cost, some i.rate, some i.years, some amount, some 200, none⟩

def c1inputsA : Inputs := ⟨25, 6, 10⟩

def c1inputsB : Inputs := ⟨25, 6, 11⟩

/-- Mount at t=2000 with inputs A (first fetch completes after 100ms), one
input change to B at t=3000. -/
def c1sim : SimState :=
  simRun 30 (simInit 2000 c1inputsA
    [(100, okResponseFor c1inputsA 44760), (100, okResponseFor c1inputsB 47000)]
    [(3000, c1inputsB)])

def c9inputsA : Inputs := ⟨25, 6, 10⟩

def c9inputsB : Inputs := ⟨25, 6, 11⟩

def c9inputsC : Inputs := ⟨25, 6, 12⟩

/-- Mount at t=2000 with inputs A; change to B at t=2600 (rate-deferred,
queues a retry); the debounced call for B starts a slow fetch (1900ms) at
t=3100; change to C at t=3200 while it is in flight; the retry scheduled by
the completing fetch fires at t=6000 with the stale closure values B, even
though the inputs have been C since t=3200. -/
def c9sim : SimState :=
  simRun 30 (simInit 2000 c9inputsA
    [(100, okResponseFor c9inputsA 44760), (1900, okResponseFor c9inputsB 47000)]
    [(2600, c9inputsB), (3200, c9inputsC)])

/-- State reached by a rate-deferred call at t=500 (sets `requestQueueRef`)
followed by a call at t=1500 that passes the gate and goes in flight. -/
def c4state : OrchState :=
  (callStep (callStep initialOrchState 1 1 1 500).1 5 7 10 1500).1

def c4failResp : FetchResponse :=
  FetchResponse.ok false 500 ⟨none, none, none, none, some 500, some "internal error"⟩

def c4okResp : FetchResponse := okResponseFor ⟨5, 7, 10⟩ 44760

/-- State with a fetch in flight that was started at t=4000 while
`lastRequestTimeRef` still holds 0. -/
def c5state : OrchState :=
  (callStep initialOrchState 5 7 10 4000).1

def c5failResp : FetchResponse :=
  FetchResponse.ok false 500 ⟨none, none, none, none, some 500, some "internal error"⟩

/-- A 200 response in which the server echoes `current_cost` as `0` — a
present but falsy field. -/
def c8payload : ApiPayload :=
  ⟨some 0, some 7, some 10, some 44760, some 200, none⟩

def c8state : OrchState :=
  (callStep initialOrchState 5 7 10 2000).1

def c7entry : CacheEntry :=
  ⟨⟨5, 7, 10, 44760⟩, 2000, 1⟩

def c7state : OrchState :=
  { initialOrchState with cache := [(getCacheKey 5 7 10, c7entry)] }

def c10state : OrchState :=
  { initialOrchState with result := some ⟨5, 7, 10, 44760⟩, pendingRequest := true }

def c3demoResult : CalculationResult := ⟨25, 6, 10, 44760⟩

/-- A full cache: 100 entries with distinct keys and strictly increasing
timestamps 0..99. -/
def c3bigCache : Cache :=
  (List.range MAX_CACHE_SIZE).map
    (fun i => (toString i, ⟨c3demoResult, (i : Int), 1⟩))

def c3demoOps : List (String × CalculationResult × Int) :=
  [("a", c3demoResult, 10), ("b", c3demoResult, 20)]

/-! Helper lemmas about the eviction scan. -/

theorem scanF_snd_le (acc : Option String × Int) (p : String × CacheEntry) :
    (scanF acc p).2 ≤ acc.2 := by
  unfold scanF
  split
  next h => exact le_of_lt h
  next h => exact le_rfl

theorem scanF_snd_le_self (acc : Option String × Int) (p : String × CacheEntry) :
    (scanF acc p).2 ≤ p.2.timestamp := by
  unfold scanF
  split
  next h => exact le_rfl
  next h => exact le_of_not_lt h

theorem scan_foldl_snd_le (l : Cache) (acc : Option String × Int) :
    (l.foldl scanF acc).2 ≤ acc.2 := by
  induction l generalizing acc with
  | nil => exact le_rfl
  | cons q l ih =>
      rw [List.foldl_cons]
      exact le_trans (ih (scanF acc q)) (scanF_snd_le acc q)

theorem scan_foldl_snd_le_mem (l : Cache) (acc : Option String × Int)
    (p : String × CacheEntry) (hp : p ∈ l) :
    (l.foldl scanF acc).2 ≤ p.2.timestamp := by
  induction l generalizing acc with
  | nil => cases hp
  | cons q l ih =>
      rw [List.foldl_cons]
      rcases List.mem_cons.mp hp with rfl | hl
      · exact le_trans (scan_foldl_snd_le l (scanF acc p)) (scanF_snd_le_self acc p)
      · exact ih (scanF acc q) hl

theorem scan_foldl_fst_isSome (l : Cache) (acc : Option String × Int) (x : String)
    (hacc : acc.1 = some x) : (l.foldl scanF acc).1.isSome := by
  induction l generalizing acc x with
  | nil => simp [hacc]
  | cons q l ih =>
      rw [List.foldl_cons]
      by_cases h : q.2.timestamp < acc.2
      · exact ih (scanF acc q) q.1 (by simp [scanF, h])
      · exact ih (scanF acc q) x (by simp [scanF, h, hacc])

theorem scan_foldl_eq_of_fst_none (l : Cache) (acc : Option String × Int)
    (h : (l.foldl scanF acc).1 = none) : l.foldl scanF acc = acc := by
  induction l generalizing acc with
  | nil => rfl
  | cons q l ih =>
      rw [List.foldl_cons] at h ⊢
      by_cases hq : q.2.timestamp < acc.2
      · exfalso
        have hsome : (l.foldl scanF (scanF acc q)).1.isSome :=
          scan_foldl_fst_isSome l (scanF acc q) q.1 (by simp [scanF, hq])
        rw [h] at hsome
        simp at hsome
      · have hacc : scanF acc q = acc := by simp [scanF, hq]
        rw [hacc] at h ⊢
        exact ih acc h

theorem scan_foldl_cases (l : Cache) (acc : Option String × Int) :
    l.foldl scanF acc = acc ∨
      ∃ p ∈ l, (l.foldl scanF acc).1 = some p.1 ∧
        (l.foldl scanF acc).2 = p.2.timestamp ∧ p.2.timestamp < acc.2 := by
  induction l generalizing acc with
  | nil => exact Or.inl rfl
  | cons q l ih =>
      rw [List.foldl_cons]
      by_cases hq : q.2.timestamp < acc.2
      · have hstep : scanF acc q = (some q.1, q.2.timestamp) := by simp [scanF, hq]
        rw [hstep]
        rcases ih (some q.1, q.2.timestamp) with heq | ⟨p, hp, h1, h2, h3⟩
        · refine Or.inr ⟨q, List.mem_cons_self q l, ?_, ?_, hq⟩
          · rw [heq]
          · rw [heq]
        · exact Or.inr ⟨p, List.mem_cons_of_mem q hp, h1, h2, lt_trans h3 hq⟩
      · have hstep : scanF acc q = acc := by simp [scanF, hq]
        rw [hstep]
        rcases ih acc with heq | ⟨p, hp, h1, h2, h3⟩
        · exact Or.inl heq
        · exact Or.inr ⟨p, List.mem_cons_of_mem q hp, h1, h2, h3⟩

/-! Helper lemmas about the map operations. -/

theorem mapSet_length (m : Cache) (k : String) (v : CacheEntry) :
    (mapSet m k v).length
      = if m.any (fun p => p.1 == k) then m.length else m.length + 1 := by
  unfold mapSet
  split
  next h => simp [h]
  next h => simp [h]

theorem mapSet_keys_of_mem (m : Cache) (k : String) (v : CacheEntry)
    (h : m.any (fun p => p.1 == k) = true) :
    (mapSet m k v).map Prod.fst = m.map Prod.fst := by
  unfold mapSet
  rw [if_pos h, List.map_map]
  apply List.map_congr_left
  intro p hp
  by_cases hpk : p.1 == k
  · simp only [Function.comp_apply, if_pos hpk]
    exact (eq_of_beq hpk).symm
  · simp only [Function.comp_apply, if_neg hpk]

theorem mapSet_keys_of_not_mem (m : Cache) (k : String) (v : CacheEntry)
    (h : ¬ m.any (fun p => p.1 == k) = true) :
    (mapSet m k v).map Prod.fst = m.map Prod.fst ++ [k] := by
  unfold mapSet
  rw [if_neg h]
  simp

theorem mapSet_keys_nodup (m : Cache) (k : String) (v : CacheEntry)
    (h : (m.map Prod.fst).Nodup) : ((mapSet m k v).map Prod.fst).Nodup := by
  by_cases hany : m.any (fun p => p.1 == k) = true
  · rw [mapSet_keys_of_mem m k v hany]
    exact h
  · rw [mapSet_keys_of_not_mem m k v hany]
    rw [List.nodup_append]
    refine ⟨h, List.nodup_singleton k, ?_⟩
    intro a ha hak
    rw [List.mem_singleton] at hak
    subst hak
    rcases List.mem_map.mp ha with ⟨p, hpm, hpk⟩
    exact hany (List.any_eq_true.mpr ⟨p, hpm, by simp [hpk]⟩)

theorem mapSet_timestamp_le (m : Cache) (k : String) (v : CacheEntry) (t : Int)
    (hm : ∀ p ∈ m, p.2.timestamp ≤ t) (hv : v.timestamp ≤ t) :
    ∀ p ∈ mapSet m k v, p.2.timestamp ≤ t := by
  intro p hp
  unfold mapSet at hp
  split at hp
  · rcases List.mem_map.mp hp with ⟨q, hq, rfl⟩
    by_cases hqk : q.1 == k
    · simp only [if_pos hqk]
      exact hv
    · simp only [if_neg hqk]
      exact hm q hq
  · rcases List.mem_append.mp hp with hl | hr
    · exact hm p hl
    · rw [List.mem_singleton] at hr
      subst hr
      exact hv

theorem mapSet_append_of_not_mem (m : Cache) (k : String) (v : CacheEntry)
    (h : k ∉ m.map Prod.fst) : mapSet m k v = m ++ [(k, v)] := by
  unfold mapSet
  rw [if_neg]
  intro hany
  rcases List.any_eq_true.mp hany with ⟨p, hpm, hpk⟩
  exact h (List.mem_map.mpr ⟨p, hpm, eq_of_beq hpk⟩)

theorem mapDelete_keys_sublist (m : Cache) (k : String) :
    ((mapDelete m k).map Prod.fst).Sublist (m.map Prod.fst) := by
  unfold mapDelete
  exact List.Sublist.map Prod.fst (List.filter_sublist m)

theorem mapDelete_length_of_mem (m : Cache) (k : String)
    (hnd : (m.map Prod.fst).Nodup) (hk : ∃ p ∈ m, p.1 = k) :
    (mapDelete m k).length + 1 = m.length := by
  induction m with
  | nil =>
      rcases hk with ⟨p, hp, _⟩
      cases hp
  | cons q m ih =>
      rw [List.map_cons, List.nodup_cons] at hnd
      by_cases hqk : q.1 = k
      · unfold mapDelete
        rw [List.filter_cons]
        have hq : (!(q.1 == k)) = false := by simp [hqk]
        rw [hq]
        simp only [Bool.false_eq_true, if_false, List.length_cons, Nat.add_right_cancel_iff]
        have hrest : ∀ p ∈ m, (!(p.1 == k)) = true := by
          intro p hp
          have hpk : p.1 ≠ k := by
            intro hpk
            exact hnd.1 (List.mem_map.mpr ⟨p, hp, by rw [hpk, hqk]⟩)
          simp [hpk]
        rw [List.filter_eq_self.mpr hrest]
      · have hk' : ∃ p ∈ m, p.1 = k := by
          rcases hk with ⟨p, hp, hpk⟩
          rcases List.mem_cons.mp hp with rfl | hpm
          · exact absurd hpk hqk
          · exact ⟨p, hpm, hpk⟩
        unfold mapDelete
        rw [List.filter_cons]
        have hq : (!(q.1 == k)) = true := by simp [hqk]
        rw [hq]
        simp only [if_pos, List.length_cons]
        have := ih hnd.2 hk'
        unfold mapDelete at this
        omega

theorem mapDelete_timestamp_le (m : Cache) (k : String) (t : Int)
    (hm : ∀ p ∈ m, p.2.timestamp ≤ t) : ∀ p ∈ mapDelete m k, p.2.timestamp ≤ t := by
  intro p hp
  unfold mapDelete at hp
  exact hm p (List.mem_of_mem_filter hp)

theorem any_key_eq_true_iff (m : Cache) (k : String) :
    m.any (fun p => p.1 == k) = true ↔ k ∈ m.map Prod.fst := by
  rw [List.any_eq_true]
  constructor
  · rintro ⟨p, hp, hpk⟩
    exact List.mem_map.mpr ⟨p, hp, eq_of_beq hpk⟩
  · intro hk
    rcases List.mem_map.mp hk with ⟨p, hp, rfl⟩
    exact ⟨p, hp, by simp⟩

theorem cachePut_wf (m : Cache) (k : String) (res : CalculationResult) (t now : Int)
    (hwf : CacheWF m t) (ht : t < now) : CacheWF (cachePut m k res now) now := by
  obtain ⟨hlen, hnd, hts⟩ := hwf
  have h100 : MAX_CACHE_SIZE = 100 := rfl
  have hts' : ∀ p ∈ m, p.2.timestamp ≤ now := fun p hp => le_trans (hts p hp) (le_of_lt ht)
  simp only [cachePut]
  set e : CacheEntry := { result := res, timestamp := now, hitCount := 1 } with he
  have hnd1 : ((mapSet m k e).map Prod.fst).Nodup := mapSet_keys_nodup m k e hnd
  have hts1 : ∀ p ∈ mapSet m k e, p.2.timestamp ≤ now :=
    mapSet_timestamp_le m k e now hts' (by rw [he])
  by_cases hbig : MAX_CACHE_SIZE < (mapSet m k e).length
  · rw [if_pos hbig]
    have hany : ¬ m.any (fun p => p.1 == k) = true := by
      intro hany
      rw [mapSet_length, if_pos hany] at hbig
      omega
    have hlen1 : (mapSet m k e).length = m.length + 1 := by
      rw [mapSet_length, if_neg hany]
    have hm100 : m.length = 100 := by omega
    have hkeys : k ∉ m.map Prod.fst := fun hk => hany ((any_key_eq_true_iff m k).mpr hk)
    cases hsc : (scanOldest (mapSet m k e) now).1 with
    | none =>
        exfalso
        unfold scanOldest at hsc
        have heq := scan_foldl_eq_of_fst_none (mapSet m k e) (none, now) hsc
        obtain ⟨q, hq⟩ := List.exists_mem_of_length_pos (by omega : 0 < m.length)
        have hq1 : q ∈ mapSet m k e := by
          rw [mapSet_append_of_not_mem m k e hkeys]
          exact List.mem_append_left _ hq
        have hle := scan_foldl_snd_le_mem (mapSet m k e) (none, now) q hq1
        rw [heq] at hle
        have := hts q hq
        simp only at hle
        omega
    | some ok =>
        simp only [hsc]
        have hok : ∃ p ∈ mapSet m k e, p.1 = ok := by
          unfold scanOldest at hsc
          rcases scan_foldl_cases (mapSet m k e) (none, now) with heq | ⟨p, hp, h1, h2, h3⟩
          · rw [heq] at hsc
            cases hsc
          · rw [h1] at hsc
            cases hsc
            exact ⟨p, hp, rfl⟩
        refine ⟨?_, ?_, ?_⟩
        · have := mapDelete_length_of_mem (mapSet m k e) ok hnd1 hok
          omega
        · exact List.Nodup.sublist (mapDelete_keys_sublist (mapSet m k e) ok) hnd1
        · exact mapDelete_timestamp_le (mapSet m k e) ok now hts1
  · rw [if_neg hbig]
    exact ⟨le_of_not_lt hbig, hnd1, hts1⟩

theorem applyPuts_aux (ops : List (String × CalculationResult × Int)) :
    ∀ (m : Cache) (t : Int), CacheWF m t →
      (∀ u ∈ ops.map (fun op => op.2.2), t < u) →
      (ops.map (fun op => op.2.2)).Pairwise (· < ·) →
      ∀ n, ∃ u, CacheWF
        ((ops.take n).foldl (fun acc op => cachePut acc op.1 op.2.1 op.2.2) m) u := by
  induction ops with
  | nil =>
      intro m t hwf _ _ n
      exact ⟨t, by simpa using hwf⟩
  | cons op ops ih =>
      intro m t hwf hall hpw n
      cases n with
      | zero => exact ⟨t, hwf⟩
      | succ n =>
          rw [List.take_succ_cons, List.foldl_cons]
          have hto : t < op.2.2 := hall _ (by simp)
          have hwf1 : CacheWF (cachePut m op.1 op.2.1 op.2.2) op.2.2 :=
            cachePut_wf m op.1 op.2.1 t op.2.2 hwf hto
          rw [List.map_cons, List.pairwise_cons] at hpw
          exact ih (cachePut m op.1 op.2.1 op.2.2) op.2.2 hwf1 hpw.1 hpw.2 n

/-- Claim C3: for every sequence of cache insertions with strictly
increasing insertion times (which the orchestrator guarantees, since
insertions are at least `MIN_REQUEST_INTERVAL` apart), the cache size never
exceeds `MAX_CACHE_SIZE` after any insertion completes; and whenever an
insertion into a full cache uses a fresh key, exactly one entry — one with
the smallest `insertedAt` timestamp — is evicted. -/
theorem c3_cache_bound_and_eviction :
    (∀ ops : List (String × CalculationResult × Int),
        (ops.map (fun op => op.2.2)).Pairwise (· < ·) →
        ∀ n, (applyPuts (ops.take n)).length ≤ MAX_CACHE_SIZE)
  ∧ (∀ (m : Cache) (k : String) (res : CalculationResult) (t now : Int),
        CacheWF m t → t < now → k ∉ m.map Prod.fst → m.length = MAX_CACHE_SIZE →
        ∃ p ∈ m, (∀ q ∈ m, p.2.timestamp ≤ q.2.timestamp) ∧
          cachePut m k res now
            = mapDelete (mapSet m k { result := res, timestamp := now, hitCount := 1 }) p.1 ∧
          (cachePut m k res now).length = MAX_CACHE_SIZE) := by
  constructor
  · intro ops hpw n
    cases hops : ops with
    | nil =>
        subst hops
        simp [applyPuts]
    | cons op rest =>
        subst hops
        have hwf0 : CacheWF [] (op.2.2 - 1) := ⟨by simp [MAX_CACHE_SIZE], by simp, by simp⟩
        have hall : ∀ u ∈ (op :: rest).map (fun o => o.2.2), op.2.2 - 1 < u := by
          intro u hu
          rw [List.map_cons, List.mem_cons] at hu
          rcases hu with rfl | hu
          · omega
          · have hhead := (List.pairwise_cons.mp (by simpa using hpw)).1 u hu
            omega
        obtain ⟨u, hu⟩ := applyPuts_aux (op :: rest) [] (op.2.2 - 1) hwf0 hall hpw n
        exact hu.1
  · intro m k res t now hwf ht hkeys hm
    obtain ⟨hlen, hnd, hts⟩ := hwf
    have h100 : MAX_CACHE_SIZE = 100 := rfl
    have hany : ¬ m.any (fun p => p.1 == k) = true :=
      fun hany => hkeys ((any_key_eq_true_iff m k).mp hany)
    have hlen1 : (mapSet m k { result := res, timestamp := now, hitCount := 1 }).length
        = m.length + 1 := by
      rw [mapSet_length, if_neg hany]
    have hnd1 : ((mapSet m k { result := res, timestamp := now, hitCount := 1 }).map
        Prod.fst).Nodup :=
      mapSet_keys_nodup m k _ hnd
    have hbig : MAX_CACHE_SIZE
        < (mapSet m k { result := res, timestamp := now, hitCount := 1 }).length := by
      omega
    cases hsc : (scanOldest (mapSet m k { result := res, timestamp := now, hitCount := 1 })
        now).1 with
    | none =>
        exfalso
        unfold scanOldest at hsc
        have heq := scan_foldl_eq_of_fst_none
          (mapSet m k { result := res, timestamp := now, hitCount := 1 }) (none, now) hsc
        obtain ⟨q, hq⟩ := List.exists_mem_of_length_pos (by omega : 0 < m.length)
        have hq1 : q ∈ mapSet m k { result := res, timestamp := now, hitCount := 1 } := by
          rw [mapSet_append_of_not_mem m k _ hkeys]
          exact List.mem_append_left _ hq
        have hle := scan_foldl_snd_le_mem
          (mapSet m k { result := res, timestamp := now, hitCount := 1 }) (none, now) q hq1
        rw [heq] at hle
        have := hts q hq
        simp only at hle
        omega
    | some ok =>
        have hput : cachePut m k res now
            = mapDelete (mapSet m k { result := res, timestamp := now, hitCount := 1 }) ok := by
          simp only [cachePut]
          rw [if_pos hbig]
          simp only [hsc]
        rcases scan_foldl_cases
            (mapSet m k { result := res, timestamp := now, hitCount := 1 }) (none, now) with
          heq | ⟨p, hp, h1, h2, h3⟩
        · exfalso
          unfold scanOldest at hsc
          rw [heq] at hsc
          cases hsc
        · unfold scanOldest at hsc
          rw [h1] at hsc
          cases hsc
          have hpm : p ∈ m := by
            rw [mapSet_append_of_not_mem m k _ hkeys] at hp
            rcases List.mem_append.mp hp with hpl | hpr
            · exact hpl
            · exfalso
              rw [List.mem_singleton] at hpr
              subst hpr
              simp only at h3
              omega
          refine ⟨p, hpm, ?_, hput, ?_⟩
          · intro q hq
            have hq1 : q ∈ mapSet m k { result := res, timestamp := now, hitCount := 1 } := by
              rw [mapSet_append_of_not_mem m k _ hkeys]
              exact List.mem_append_left _ hq
            have := scan_foldl_snd_le_mem
              (mapSet m k { result := res, timestamp := now, hitCount := 1 }) (none, now) q hq1
            rw [h2] at this
            exact this
          · rw [hput]
            have := mapDelete_length_of_mem
              (mapSet m k { result := res, timestamp := now, hitCount := 1 }) p.1 hnd1
              ⟨p, hp, rfl⟩
            omega

/-- Witness for C3: a concrete two-insertion sequence for the size bound,
and an eviction from the concrete full cache `c3bigCache`. -/
theorem c3_cache_bound_and_eviction_witness :
    ((c3demoOps.map (fun op => op.2.2)).Pairwise (· < ·)
      ∧ (applyPuts (c3demoOps.take 2)).length ≤ MAX_CACHE_SIZE)
  ∧ (CacheWF c3bigCache 99 ∧ (99 : Int) < 100 ∧ "x" ∉ c3bigCache.map Prod.fst
      ∧ c3bigCache.length = MAX_CACHE_SIZE
      ∧ ∃ p ∈ c3bigCache, (∀ q ∈ c3bigCache, p.2.timestamp ≤ q.2.timestamp) ∧
          cachePut c3bigCache "x" c3demoResult 100
            = mapDelete (mapSet c3bigCache "x"
                { result := c3demoResult, timestamp := 100, hitCount := 1 }) p.1 ∧
          (cachePut c3bigCache "x" c3demoResult 100).length = MAX_CACHE_SIZE) := by
  have hp : (c3demoOps.map (fun op => op.2.2)).Pairwise (· < ·) := by decide
  have hw : CacheWF c3bigCache 99 := by decide
  have h2 : (99 : Int) < 100 := by decide
  have h3 : "x" ∉ c3bigCache.map Prod.fst := by decide
  have h4 : c3bigCache.length = MAX_CACHE_SIZE := by decide
  exact ⟨⟨hp, c3_cache_bound_and_eviction.1 c3demoOps hp 2⟩,
         hw, h2, h3, h4,
         c3_cache_bound_and_eviction.2 c3bigCache "x" c3demoResult 99 100 hw h2 h3 h4⟩

/-! Case characterizations of the orchestrator steps. -/

theorem callRateGate_cases (s : OrchState) (now : Int) :
    (now - s.lastRequestTime < MIN_REQUEST_INTERVAL ∧
        callRateGate s now = ({ s with requestQueue := true }, CallOutcome.deferred))
  ∨ (¬ now - s.lastRequestTime < MIN_REQUEST_INTERVAL ∧
        callRateGate s now
          = ({ s with pendingRequest := true, loading := true, error := none },
             CallOutcome.fetchStarted)) := by
  by_cases h : now - s.lastRequestTime < MIN_REQUEST_INTERVAL
  · exact Or.inl ⟨h, by simp [callRateGate, h]⟩
  · exact Or.inr ⟨h, by simp [callRateGate, h]⟩

theorem callStep_cases (s : OrchState) (cost rate yrs : ℚ) (now : Int) :
    (s.pendingRequest = true ∧ callStep s cost rate yrs now = (s, CallOutcome.droppedInFlight))
  ∨ (s.pendingRequest = false ∧ ∃ cached,
        mapGet s.cache (getCacheKey cost rate yrs) = some cached ∧
        isCacheValid cached.timestamp now = true ∧
        callStep s cost rate yrs now
          = ({ s with
                cache := mapSet s.cache (getCacheKey cost rate yrs)
                  { cached with hitCount := cached.hitCount + 1 }
                result := some cached.result
                error := none
                loading := false },
             CallOutcome.servedFromCache))
  ∨ (s.pendingRequest = false ∧
        (∀ cached, mapGet s.cache (getCacheKey cost rate yrs) = some cached →
            isCacheValid cached.timestamp now = false) ∧
        callStep s cost rate yrs now = callRateGate s now) := by
  by_cases hp : s.pendingRequest
  · exact Or.inl ⟨hp, by simp [callStep, hp]⟩
  · have hp' : s.pendingRequest = false := by simpa using hp
    cases hmg : mapGet s.cache (getCacheKey cost rate yrs) with
    | some cached =>
        by_cases hv : isCacheValid cached.timestamp now
        · refine Or.inr (Or.inl ⟨hp', cached, rfl, hv, ?_⟩)
          simp [callStep, hp, hmg, hv]
        · refine Or.inr (Or.inr ⟨hp', ?_, ?_⟩)
          · intro c hc
            cases hc
            simpa using hv
          · simp [callStep, hp, hmg, hv]
    | none =>
        refine Or.inr (Or.inr ⟨hp', ?_, ?_⟩)
        · intro c hc
          cases hc
        · simp [callStep, hp, hmg]

theorem responseTry_cases (s : OrchState) (cost rate yrs : ℚ) (resp : FetchResponse) (now : Int) :
    (∃ msg, resp = FetchResponse.networkError msg ∧
        responseTry s cost rate yrs resp now = { s with error := some msg, loading := false })
  ∨ (∃ httpOk httpStatus data, resp = FetchResponse.ok httpOk httpStatus data ∧
        (httpStatus = 429 ∨ data.status = some 429) ∧
        responseTry s cost rate yrs resp now
          = { s with error := some rateLimitMsg, pendingRequest := false, loading := false })
  ∨ (∃ httpOk httpStatus data, resp = FetchResponse.ok httpOk httpStatus data ∧
        ¬(httpStatus = 429 ∨ data.status = some 429) ∧
        (httpOk = false ∨ statusIsError data.status) ∧
        responseTry s cost rate yrs resp now
          = { s with error := some (jsOrStr data.status_msg fallbackErrorMsg),
                     loading := false })
  ∨ (∃ httpOk httpStatus data, resp = FetchResponse.ok httpOk httpStatus data ∧
        isSuccessResponse resp ∧
        responseTry s cost rate yrs resp now
          = { s with
                cache := cachePut s.cache (getCacheKey cost rate yrs)
                  (normalizePayload data cost rate yrs) now
                result := some (normalizePayload data cost rate yrs)
                lastRequestTime := now
                loading := false }) := by
  cases resp with
  | networkError msg => exact Or.inl ⟨msg, rfl, by simp [responseTry]⟩
  | ok httpOk httpStatus data =>
      by_cases h1 : httpStatus = 429 ∨ data.status = some 429
      · exact Or.inr (Or.inl ⟨httpOk, httpStatus, data, rfl, h1, by simp [responseTry, h1]⟩)
      · by_cases h2 : httpOk = false ∨ statusIsError data.status
        · exact Or.inr (Or.inr (Or.inl
            ⟨httpOk, httpStatus, data, rfl, h1, h2, by simp [responseTry, h1, h2]⟩))
        · exact Or.inr (Or.inr (Or.inr
            ⟨httpOk, httpStatus, data, rfl, ⟨h1, h2⟩, by simp [responseTry, h1, h2]⟩))

theorem responseFinally_cases (s : OrchState) (now : Int) :
    (s.requestQueue = false ∧
        responseFinally s now = ({ s with pendingRequest := false }, none))
  ∨ (s.requestQueue = true ∧ MIN_REQUEST_INTERVAL - (now - s.lastRequestTime) > 0 ∧
        responseFinally s now
          = ({ s with requestQueue := false, pendingRequest := false },
             some (MIN_REQUEST_INTERVAL - (now - s.lastRequestTime))))
  ∨ (s.requestQueue = true ∧ ¬ MIN_REQUEST_INTERVAL - (now - s.lastRequestTime) > 0 ∧
        responseFinally s now
          = ({ s with requestQueue := false, pendingRequest := false }, none)) := by
  by_cases hq : s.requestQueue
  · by_cases hr : MIN_REQUEST_INTERVAL - (now - s.lastRequestTime) > 0
    · exact Or.inr (Or.inl ⟨hq, hr, by simp [responseFinally, hq, hr]⟩)
    · exact Or.inr (Or.inr ⟨hq, hr, by simp [responseFinally, hq, hr]⟩)
  · exact Or.inl ⟨by simpa using hq, by simp [responseFinally, hq]⟩

theorem responseTry_requestQueue (s : OrchState) (cost rate yrs : ℚ) (resp : FetchResponse)
    (now : Int) : (responseTry s cost rate yrs resp now).requestQueue = s.requestQueue := by
  rcases responseTry_cases s cost rate yrs resp now with
    ⟨msg, _, heq⟩ | ⟨a, b, c, _, _, heq⟩ | ⟨a, b, c, _, _, _, heq⟩ | ⟨a, b, c, _, _, heq⟩ <;>
    rw [heq]

theorem responseTry_lastRequestTime (s : OrchState) (cost rate yrs : ℚ) (resp : FetchResponse)
    (now : Int) :
    (responseTry s cost rate yrs resp now).lastRequestTime
      = if isSuccessResponse resp then now else s.lastRequestTime := by
  rcases responseTry_cases s cost rate yrs resp now with
    ⟨msg, hr, heq⟩ | ⟨a, b, c, hr, hcond, heq⟩ | ⟨a, b, c, hr, h1, h2, heq⟩ |
    ⟨a, b, c, hr, hs, heq⟩
  · subst hr
    have hns : ¬ isSuccessResponse (FetchResponse.networkError msg) := fun hs => hs
    rw [heq, if_neg hns]
  · subst hr
    have hns : ¬ isSuccessResponse (FetchResponse.ok a b c) := fun hs => hs.1 hcond
    rw [heq, if_neg hns]
  · subst hr
    have hns : ¬ isSuccessResponse (FetchResponse.ok a b c) := fun hs => hs.2 h2
    rw [heq, if_neg hns]
  · rw [heq, if_pos hs]

theorem callStep_lastRequestTime (s : OrchState) (cost rate yrs : ℚ) (now : Int) :
    (callStep s cost rate yrs now).1.lastRequestTime = s.lastRequestTime := by
  rcases callStep_cases s cost rate yrs now with
    ⟨_, heq⟩ | ⟨_, cached, _, _, heq⟩ | ⟨_, _, heq⟩
  · rw [heq]
  · rw [heq]
  · rw [heq]
    rcases callRateGate_cases s now with ⟨_, hgeq⟩ | ⟨_, hgeq⟩ <;> rw [hgeq]

theorem responseFinally_lastRequestTime (s : OrchState) (now : Int) :
    (responseFinally s now).1.lastRequestTime = s.lastRequestTime := by
  rcases responseFinally_cases s now with ⟨_, heq⟩ | ⟨_, _, heq⟩ | ⟨_, _, heq⟩ <;> rw [heq]

theorem responseFinally_preserves (s : OrchState) (now : Int) :
    (responseFinally s now).1.result = s.result
    ∧ (responseFinally s now).1.cache = s.cache
    ∧ (responseFinally s now).1.lastRequestTime = s.lastRequestTime
    ∧ (responseFinally s now).1.error = s.error
    ∧ (responseFinally s now).1.loading = s.loading := by
  rcases responseFinally_cases s now with ⟨_, heq⟩ | ⟨_, _, heq⟩ | ⟨_, _, heq⟩ <;> rw [heq] <;>
    exact ⟨rfl, rfl, rfl, rfl, rfl⟩

theorem callStep_fetchStarted_state (s : OrchState) (cost rate yrs : ℚ) (now : Int)
    (h : (callStep s cost rate yrs now).2 = CallOutcome.fetchStarted) :
    (callStep s cost rate yrs now).1
      = { s with pendingRequest := true, loading := true, error := none } := by
  rcases callStep_cases s cost rate yrs now with
    ⟨_, heq⟩ | ⟨_, cached, _, _, heq⟩ | ⟨_, _, heq⟩
  · rw [heq] at h
    simp at h
  · rw [heq] at h
    simp at h
  · rw [heq] at h ⊢
    rcases callRateGate_cases s now with ⟨_, hgeq⟩ | ⟨_, hgeq⟩
    · rw [hgeq] at h
      simp at h
    · rw [hgeq]

theorem jsOrQ_eq (x : Option ℚ) (fb : ℚ) :
    jsOrQ x fb = if x = none ∨ x = some 0 then fb else x.getD fb := by
  cases x with
  | none => simp [jsOrQ]
  | some v =>
      by_cases hv : v = 0
      · simp [jsOrQ, hv]
      · simp [jsOrQ, hv]

theorem jsOrQ_zero_eq (x : Option ℚ) :
    jsOrQ x 0 = if x = none then 0 else x.getD 0 := by
  cases x with
  | none => simp [jsOrQ]
  | some v =>
      by_cases hv : v = 0
      · simp [jsOrQ, hv]
      · simp [jsOrQ, hv]

/-- Claim C1 (code-bug evidence): the mount effect's dependency list contains
`fetchCalculation`, whose identity changes on every input change, so the
"mount" effect re-fires an immediate, non-debounced call on every input
change (and the debounce effect also schedules a call at mount).  In the
concrete run `c1sim` — mount at t=2000, one input change at t=3000 — the
claim predicts exactly two triggers (the mount call at 2000 and one
debounced call at 3500), but the code produces five: the mount call, a
debounce-timer call scheduled by the mount render, an immediate re-fire of
the mount effect at the input change (which is rate-deferred and pollutes
the retry queue), the debounced call, and the queued retry's echo. -/
theorem c1_debounce_trace :
    c1sim.log
      = [⟨2000, c1inputsA, CallOutcome.fetchStarted⟩,
         ⟨2500, c1inputsA, CallOutcome.servedFromCache⟩,
         ⟨3000, c1inputsB, CallOutcome.deferred⟩,
         ⟨3500, c1inputsB, CallOutcome.fetchStarted⟩,
         ⟨4600, c1inputsB, CallOutcome.servedFromCache⟩]
  ∧ c1sim.log.length ≠ 2 := by
  refine ⟨by decide, by decide⟩

/-- Claim C2: while a request is in flight (`pendingRequestRef` set), any
`fetchCalculation` call is a no-op that changes nothing and issues no
network request; hence a second call issued after a first call started a
fetch is dropped, so two calls with the first in flight yield exactly one
network call. -/
theorem c2_dedup_single_flight :
    (∀ (s : OrchState) (cost rate yrs : ℚ) (now : Int), s.pendingRequest = true →
        callStep s cost rate yrs now = (s, CallOutcome.droppedInFlight))
  ∧ (∀ (s : OrchState) (cost1 rate1 yrs1 : ℚ) (t1 : Int) (cost2 rate2 yrs2 : ℚ) (t2 : Int),
        (callStep s cost1 rate1 yrs1 t1).2 = CallOutcome.fetchStarted →
        callStep (callStep s cost1 rate1 yrs1 t1).1 cost2 rate2 yrs2 t2
          = ((callStep s cost1 rate1 yrs1 t1).1, CallOutcome.droppedInFlight)) := by
  have hguard : ∀ (s : OrchState) (cost rate yrs : ℚ) (now : Int), s.pendingRequest = true →
      callStep s cost rate yrs now = (s, CallOutcome.droppedInFlight) := by
    intro s cost rate yrs now h
    simp [callStep, h]
  refine ⟨hguard, ?_⟩
  intro s cost1 rate1 yrs1 t1 cost2 rate2 yrs2 t2 h
  have hpend : (callStep s cost1 rate1 yrs1 t1).1.pendingRequest = true := by
    rw [callStep_fetchStarted_state s cost1 rate1 yrs1 t1 h]
  exact hguard _ cost2 rate2 yrs2 t2 hpend

/-- Witness for C2: a call on the state left by a started fetch is dropped
without any state change. -/
theorem c2_dedup_single_flight_witness :
    ({ initialOrchState with pendingRequest := true } : OrchState).pendingRequest = true
  ∧ callStep { initialOrchState with pendingRequest := true } 5 7 10 2000
      = ({ initialOrchState with pendingRequest := true }, CallOutcome.droppedInFlight)
  ∧ (callStep initialOrchState 5 7 10 2000).2 = CallOutcome.fetchStarted
  ∧ callStep (callStep initialOrchState 5 7 10 2000).1 5 7 11 2100
      = ((callStep initialOrchState 5 7 10 2000).1, CallOutcome.droppedInFlight) := by
  have h1 : ({ initialOrchState with pendingRequest := true } : OrchState).pendingRequest
      = true := rfl
  have h2 : (callStep initialOrchState 5 7 10 2000).2 = CallOutcome.fetchStarted := by decide
  exact ⟨h1, c2_dedup_single_flight.1 _ 5 7 10 2000 h1, h2,
         c2_dedup_single_flight.2 initialOrchState 5 7 10 2000 5 7 11 2100 h2⟩

/-- Claim C4 counterexample: a completion that observes `requestQueueRef`
set does NOT always schedule a follow-up.  In `c4state` a deferred call has
set the queue flag and a fetch is in flight with `lastRequestTimeRef = 0`;
when that fetch fails at t=2500, the remaining spacing
`MIN_REQUEST_INTERVAL - (2500 - 0)` is negative and the source's
`if (retryTime > 0)` silently drops the queued retry: no follow-up call is
ever scheduled, contradicting the claimed clamp-to-zero scheduling. -/
theorem c4_retry_dropped_counterexample :
    c4state.requestQueue = true ∧ c4state.pendingRequest = true
  ∧ c4state.lastRequestTime = 0
  ∧ (responseStep c4state 5 7 10 c4failResp 2500).1.requestQueue = false
  ∧ (responseStep c4state 5 7 10 c4failResp 2500).2 = none := by
  refine ⟨by decide, by decide, by decide, by decide, by decide⟩

/-- Claim C4 (amended): on completion with `retryQueued` set, the flag is
cleared and a follow-up is scheduled after the remaining interval exactly
when that interval is strictly positive (otherwise the queued request is
dropped); whenever a follow-up is scheduled it fires exactly at
`lastRequestAt + MIN_REQUEST_INTERVAL`. -/
theorem c4_retry_schedule_amended :
    ∀ (s : OrchState) (cost rate yrs : ℚ) (resp : FetchResponse) (now : Int),
      s.requestQueue = true →
      (responseStep s cost rate yrs resp now).1.requestQueue = false
      ∧ ((responseStep s cost rate yrs resp now).2
          = if MIN_REQUEST_INTERVAL
              - (now - (responseStep s cost rate yrs resp now).1.lastRequestTime) > 0
            then some (MIN_REQUEST_INTERVAL
              - (now - (responseStep s cost rate yrs resp now).1.lastRequestTime))
            else none)
      ∧ (∀ d, (responseStep s cost rate yrs resp now).2 = some d →
            now + d = (responseStep s cost rate yrs resp now).1.lastRequestTime
              + MIN_REQUEST_INTERVAL) := by
  intro s cost rate yrs resp now hq
  have hqT : (responseTry s cost rate yrs resp now).requestQueue = true := by
    rw [responseTry_requestQueue]
    exact hq
  simp only [responseStep]
  rcases responseFinally_cases (responseTry s cost rate yrs resp now) now with
    ⟨hf, _⟩ | ⟨_, hr, heq⟩ | ⟨_, hr, heq⟩
  · rw [hqT] at hf
    cases hf
  · rw [heq]
    refine ⟨rfl, by simp [hr], ?_⟩
    intro d hd
    simp only [Option.some.injEq] at hd
    subst hd
    have hM : MIN_REQUEST_INTERVAL = 1000 := rfl
    simp only []
    omega
  · rw [heq]
    refine ⟨rfl, by simp [hr], ?_⟩
    intro d hd
    cases hd

/-- Witness for C4 (amended): after a successful fetch at t=2500 with the
queue flag set, the follow-up is scheduled for exactly
`MIN_REQUEST_INTERVAL` later. -/
theorem c4_retry_schedule_amended_witness :
    c4state.requestQueue = true
  ∧ (responseStep c4state 5 7 10 c4okResp 2500).1.requestQueue = false
  ∧ (responseStep c4state 5 7 10 c4okResp 2500).2 = some 1000 := by
  have hq : c4state.requestQueue = true := by decide
  exact ⟨hq, (c4_retry_schedule_amended c4state 5 7 10 c4okResp 2500 hq).1, by decide⟩

/-- Claim C5 counterexample: a definitive (non-429) failure does NOT update
`lastRequestTimeRef`.  A fetch started at t=4000 (with the clock still at
0) fails definitively at t=5000, yet the clock still reads 0, not the
completion time 5000 the claim requires. -/
theorem c5_failure_clock_counterexample :
    c5state.pendingRequest = true ∧ c5state.lastRequestTime = 0
  ∧ (responseStep c5state 5 7 10 c5failResp 5000).1.error = some "internal error"
  ∧ (responseStep c5state 5 7 10 c5failResp 5000).1.lastRequestTime = 0
  ∧ (0 : Int) ≠ 5000 := by
  refine ⟨by decide, by decide, by decide, by decide, by decide⟩

/-- Claim C5 (amended): `lastRequestAt` is updated exactly when a request
completes successfully — never at request initiation, and never on a
rate-limited or definitive failure, after which it retains its previous
value. -/
theorem c5_last_request_time_amended :
    ∀ (s : OrchState) (cost rate yrs : ℚ) (resp : FetchResponse) (now : Int),
      ((responseStep s cost rate yrs resp now).1.lastRequestTime
        = if isSuccessResponse resp then now else s.lastRequestTime)
    ∧ (∀ t, (callStep s cost rate yrs t).1.lastRequestTime = s.lastRequestTime) := by
  intro s cost rate yrs resp now
  constructor
  · simp only [responseStep]
    rw [responseFinally_lastRequestTime, responseTry_lastRequestTime]
  · intro t
    exact callStep_lastRequestTime s cost rate yrs t

/-- Claim C6: any response with HTTP status 429 or an in-payload status of
429 takes the rate-limit branch: the distinct rate-limit message is
published, loading and the in-flight flag are cleared, and neither the
cache nor `lastRequestTimeRef` changes. -/
theorem c6_rate_limit_branch :
    ∀ (s : OrchState) (cost rate yrs : ℚ) (httpOk : Bool) (httpStatus : Int)
      (data : ApiPayload) (now : Int),
      (httpStatus = 429 ∨ data.status = some 429) →
      (responseStep s cost rate yrs (FetchResponse.ok httpOk httpStatus data) now).1.cache
          = s.cache
      ∧ (responseStep s cost rate yrs
          (FetchResponse.ok httpOk httpStatus data) now).1.lastRequestTime
          = s.lastRequestTime
      ∧ (responseStep s cost rate yrs (FetchResponse.ok httpOk httpStatus data) now).1.error
          = some rateLimitMsg
      ∧ (responseStep s cost rate yrs (FetchResponse.ok httpOk httpStatus data) now).1.loading
          = false
      ∧ (responseStep s cost rate yrs
          (FetchResponse.ok httpOk httpStatus data) now).1.pendingRequest = false
      ∧ rateLimitMsg ≠ fallbackErrorMsg := by
  intro s cost rate yrs httpOk httpStatus data now h
  have hT : responseTry s cost rate yrs (FetchResponse.ok httpOk httpStatus data) now
      = { s with error := some rateLimitMsg, pendingRequest := false, loading := false } := by
    simp [responseTry, h]
  simp only [responseStep, hT]
  rcases responseFinally_cases
      ({ s with error := some rateLimitMsg, pendingRequest := false, loading := false }) now with
    ⟨_, heq⟩ | ⟨_, _, heq⟩ | ⟨_, _, heq⟩ <;>
    rw [heq] <;> exact ⟨rfl, rfl, rfl, rfl, rfl, by decide⟩

/-- Witness for C6: an HTTP 429 response at a concrete state. -/
theorem c6_rate_limit_branch_witness :
    ((429 : Int) = 429 ∨ (⟨none, none, none, none, none, none⟩ : ApiPayload).status = some 429)
  ∧ (responseStep c5state 5 7 10
      (FetchResponse.ok false 429 ⟨none, none, none, none, none, none⟩) 5000).1.cache
      = c5state.cache
  ∧ (responseStep c5state 5 7 10
      (FetchResponse.ok false 429 ⟨none, none, none, none, none, none⟩) 5000).1.lastRequestTime
      = c5state.lastRequestTime
  ∧ (responseStep c5state 5 7 10
      (FetchResponse.ok false 429 ⟨none, none, none, none, none, none⟩) 5000).1.error
      = some rateLimitMsg := by
  have h : ((429 : Int) = 429
      ∨ (⟨none, none, none, none, none, none⟩ : ApiPayload).status = some 429) := Or.inl rfl
  have hc := c6_rate_limit_branch c5state 5 7 10 false 429 ⟨none, none, none, none, none, none⟩
    5000 h
  exact ⟨h, hc.1, hc.2.1, hc.2.2.1⟩

/-- Claim C7: with no request in flight, a cache entry for the computed key
that is still valid is served — its hit count is incremented in place, its
result is published, the error is cleared, and the network and the rate
limiter are untouched (the state equality shows `lastRequestTime`,
`requestQueue` and `pendingRequest` unchanged); an expired entry is never
served, and it remains physically present because the cache is unchanged
on the miss path. -/
theorem c7_cache_hit_branch :
    ∀ (s : OrchState) (cost rate yrs : ℚ) (now : Int) (entry : CacheEntry),
      s.pendingRequest = false →
      mapGet s.cache (getCacheKey cost rate yrs) = some entry →
      ((now - entry.timestamp < CACHE_DURATION →
          callStep s cost rate yrs now
            = ({ s with
                  cache := mapSet s.cache (getCacheKey cost rate yrs)
                    { entry with hitCount := entry.hitCount + 1 }
                  result := some entry.result
                  error := none
                  loading := false },
               CallOutcome.servedFromCache))
      ∧ (¬ now - entry.timestamp < CACHE_DURATION →
          (callStep s cost rate yrs now).2 ≠ CallOutcome.servedFromCache
          ∧ (callStep s cost rate yrs now).1.cache = s.cache
          ∧ (callStep s cost rate yrs now).1.result = s.result
          ∧ (callStep s cost rate yrs now).1.lastRequestTime = s.lastRequestTime)) := by
  intro s cost rate yrs now entry hp hmg
  constructor
  · intro hvalid
    simp [callStep, hp, hmg, isCacheValid, hvalid]
  · intro hexp
    rcases callStep_cases s cost rate yrs now with
      ⟨hp2, heq⟩ | ⟨_, cached, hmg2, hv2, heq⟩ | ⟨_, _, heq⟩
    · rw [hp] at hp2
      cases hp2
    · rw [hmg] at hmg2
      cases hmg2
      rw [isCacheValid, decide_eq_true_eq] at hv2
      exact absurd hv2 hexp
    · rw [heq]
      rcases callRateGate_cases s now with ⟨_, hgeq⟩ | ⟨_, hgeq⟩ <;> rw [hgeq] <;>
        exact ⟨by simp, rfl, rfl, rfl⟩

/-- Witness for C7: the single-entry cache `c7state` serves its entry at
t=2500 (valid) and refuses it at t=700000 (expired), leaving the cache
unchanged. -/
theorem c7_cache_hit_branch_witness :
    c7state.pendingRequest = false
  ∧ mapGet c7state.cache (getCacheKey 5 7 10) = some c7entry
  ∧ ((2500 : Int) - c7entry.timestamp < CACHE_DURATION)
  ∧ callStep c7state 5 7 10 2500
      = ({ c7state with
            cache := mapSet c7state.cache (getCacheKey 5 7 10)
              { c7entry with hitCount := c7entry.hitCount + 1 }
            result := some c7entry.result
            error := none
            loading := false },
         CallOutcome.servedFromCache)
  ∧ (¬ (700000 : Int) - c7entry.timestamp < CACHE_DURATION)
  ∧ (callStep c7state 5 7 10 700000).2 ≠ CallOutcome.servedFromCache
  ∧ (callStep c7state 5 7 10 700000).1.cache = c7state.cache := by
  have h1 : c7state.pendingRequest = false := by decide
  have h2 : mapGet c7state.cache (getCacheKey 5 7 10) = some c7entry := by decide
  have h3 : (2500 : Int) - c7entry.timestamp < CACHE_DURATION := by decide
  have h4 : ¬ (700000 : Int) - c7entry.timestamp < CACHE_DURATION := by decide
  refine ⟨h1, h2, h3, (c7_cache_hit_branch c7state 5 7 10 2500 c7entry h1 h2).1 h3, h4, ?_, ?_⟩
  · exact ((c7_cache_hit_branch c7state 5 7 10 700000 c7entry h1 h2).2 h4).1
  · exact ((c7_cache_hit_branch c7state 5 7 10 700000 c7entry h1 h2).2 h4).2.1

/-- Claim C8 counterexample: the fallback is JavaScript `||`, so a field the
server echoes as `0` (present, not omitted) still falls back to the
requested value.  With requested cost 5 and a 200 payload echoing
`current_cost: 0`, the published result carries 5 — whereas the claim's
"falls back exactly when the server omits that field" (formalized as
`specNormalizePayload`) requires 0. -/
theorem c8_zero_echo_counterexample :
    c8payload.current_cost = some 0
  ∧ (responseStep c8state 5 7 10 (FetchResponse.ok true 200 c8payload) 2100).1.result
      = some (normalizePayload c8payload 5 7 10)
  ∧ (normalizePayload c8payload 5 7 10).current_cost = 5
  ∧ (specNormalizePayload c8payload 5 7 10).current_cost = 0
  ∧ normalizePayload c8payload 5 7 10 ≠ specNormalizePayload c8payload 5 7 10 := by
  refine ⟨by decide, by decide, by decide, by decide, by decide⟩

/-- Claim C8 (amended): on a success response, the published and cached
result is `normalizePayload` — each of cost/rate/years falls back to the
requested value exactly when the server omits that field OR echoes it as
zero; `future_amount` falls back to zero exactly when missing (echoing it
as zero coincides with the fallback).  The result is stored in the cache,
published, the error field is left as it was (null since the fetch set it
null at initiation), and `lastRequestAt` is set to `now`. -/
theorem c8_success_normalization_amended :
    ∀ (s : OrchState) (cost rate yrs : ℚ) (httpOk : Bool) (httpStatus : Int)
      (data : ApiPayload) (now : Int),
      isSuccessResponse (FetchResponse.ok httpOk httpStatus data) →
      ((responseStep s cost rate yrs (FetchResponse.ok httpOk httpStatus data) now).1.result
          = some (normalizePayload data cost rate yrs))
      ∧ ((responseStep s cost rate yrs (FetchResponse.ok httpOk httpStatus data) now).1.cache
          = cachePut s.cache (getCacheKey cost rate yrs)
              (normalizePayload data cost rate yrs) now)
      ∧ ((responseStep s cost rate yrs
            (FetchResponse.ok httpOk httpStatus data) now).1.lastRequestTime = now)
      ∧ ((responseStep s cost rate yrs (FetchResponse.ok httpOk httpStatus data) now).1.error
          = s.error)
      ∧ ((normalizePayload data cost rate yrs).current_cost
          = if data.current_cost = none ∨ data.current_cost = some 0 then cost
            else data.current_cost.getD cost)
      ∧ ((normalizePayload data cost rate yrs).inflation_rate
          = if data.inflation_rate = none ∨ data.inflation_rate = some 0 then rate
            else data.inflation_rate.getD rate)
      ∧ ((normalizePayload data cost rate yrs).no_years
          = if data.no_years = none ∨ data.no_years = some 0 then yrs
            else data.no_years.getD yrs)
      ∧ ((normalizePayload data cost rate yrs).future_amount
          = if data.future_amount = none then 0 else data.future_amount.getD 0) := by
  intro s cost rate yrs httpOk httpStatus data now hs
  have h1 : ¬(httpStatus = 429 ∨ data.status = some 429) := hs.1
  have h2 : ¬(httpOk = false ∨ statusIsError data.status) := hs.2
  have hT : responseTry s cost rate yrs (FetchResponse.ok httpOk httpStatus data) now
      = { s with
            cache := cachePut s.cache (getCacheKey cost rate yrs)
              (normalizePayload data cost rate yrs) now
            result := some (normalizePayload data cost rate yrs)
            lastRequestTime := now
            loading := false } := by
    simp [responseTry, h1, h2]
  simp only [responseStep, hT]
  rcases responseFinally_cases
      ({ s with
          cache := cachePut s.cache (getCacheKey cost rate yrs)
            (normalizePayload data cost rate yrs) now
          result := some (normalizePayload data cost rate yrs)
          lastRequestTime := now
          loading := false }) now with
    ⟨_, heq⟩ | ⟨_, _, heq⟩ | ⟨_, _, heq⟩ <;>
    rw [heq] <;>
    exact ⟨rfl, rfl, rfl, rfl,
           by simp only [normalizePayload, jsOrQ_eq],
           by simp only [normalizePayload, jsOrQ_eq],
           by simp only [normalizePayload, jsOrQ_eq],
           by simp only [normalizePayload, jsOrQ_zero_eq]⟩

/-- Witness for C8 (amended): a concrete success response whose echoed
fields are published and cached. -/
theorem c8_success_normalization_amended_witness :
    isSuccessResponse (FetchResponse.ok true 200 c8payload)
  ∧ (responseStep c8state 5 7 10 (FetchResponse.ok true 200 c8payload) 2100).1.result
      = some (normalizePayload c8payload 5 7 10)
  ∧ (responseStep c8state 5 7 10 (FetchResponse.ok true 200 c8payload) 2100).1.lastRequestTime
      = 2100 := by
  have hs : isSuccessResponse (FetchResponse.ok true 200 c8payload) := by decide
  exact ⟨hs,
         (c8_success_normalization_amended c8state 5 7 10 true 200 c8payload 2100 hs).1,
         (c8_success_normalization_amended c8state 5 7 10 true 200 c8payload 2100 hs).2.2.1⟩

/-- Claim C9 (code-bug evidence): the retry `setTimeout` callback reads the
input values captured by the closure of the `fetchCalculation` instance
that ran, not the latest values at fire time.  In `c9sim` the inputs have
been C (years = 12) since t=3200, yet the queued retry fires at t=6000 with
the stale values B (years = 11); both calls made with C were dropped by the
in-flight guard, so the final inputs C are never fetched at all. -/
theorem c9_retry_stale_inputs :
    c9sim.log.getLast? = some ⟨6000, c9inputsB, CallOutcome.servedFromCache⟩
  ∧ c9sim.inputs = c9inputsC
  ∧ c9inputsB ≠ c9inputsC
  ∧ (∀ e ∈ c9sim.log, e.args = c9inputsC → e.outcome = CallOutcome.droppedInFlight) := by
  refine ⟨by decide, by decide, by decide, by decide⟩

/-- Claim C10: every failing completion — rate-limited, thrown non-OK
status, or transport error — leaves the published result, the cache and
the spacing clock untouched. -/
theorem c10_failure_preserves_result :
    ∀ (s : OrchState) (cost rate yrs : ℚ) (resp : FetchResponse) (now : Int),
      ¬ isSuccessResponse resp →
      (responseStep s cost rate yrs resp now).1.result = s.result
      ∧ (responseStep s cost rate yrs resp now).1.cache = s.cache
      ∧ (responseStep s cost rate yrs resp now).1.lastRequestTime = s.lastRequestTime := by
  intro s cost rate yrs resp now hns
  obtain ⟨p1, p2, p3, _, _⟩ :=
    responseFinally_preserves (responseTry s cost rate yrs resp now) now
  rcases responseTry_cases s cost rate yrs resp now with
    ⟨msg, hr, heq⟩ | ⟨a, b, c, hr, hc, heq⟩ | ⟨a, b, c, hr, hx1, hx2, heq⟩ |
    ⟨a, b, c, hr, hs, heq⟩
  · refine ⟨?_, ?_, ?_⟩ <;> simp only [responseStep]
    · rw [p1, heq]
    · rw [p2, heq]
    · rw [p3, heq]
  · refine ⟨?_, ?_, ?_⟩ <;> simp only [responseStep]
    · rw [p1, heq]
    · rw [p2, heq]
    · rw [p3, heq]
  · refine ⟨?_, ?_, ?_⟩ <;> simp only [responseStep]
    · rw [p1, heq]
    · rw [p2, heq]
    · rw [p3, heq]
  · exact absurd hs hns

/-- Witness for C10: a transport error on a state holding a previously
published result leaves that result in place. -/
theorem c10_failure_preserves_result_witness :
    ¬ isSuccessResponse (FetchResponse.networkError "boom")
  ∧ (responseStep c10state 5 7 10 (FetchResponse.networkError "boom") 3000).1.result
      = c10state.result
  ∧ (responseStep c10state 5 7 10 (FetchResponse.networkError "boom") 3000).1.error
      = some "boom" := by
  have hns : ¬ isSuccessResponse (FetchResponse.networkError "boom") := by decide
  exact ⟨hns,
         (c10_failure_preserves_result c10state 5 7 10 (FetchResponse.networkError "boom")
           3000 hns).1,
         by decide⟩
